import Mathlib

/-!
Shallow embedding of the physics core of `simulation.py` from the
`coulumb_law_sim` repository: the charge data model, the pairwise Coulomb
force computation (`ChargeSimulation.compute_forces`), the semi-implicit
Euler integrator with boundary deactivation
(`ChargeSimulation.update_physics`), the per-tick update loop
(`ChargeSimulation.update`), preset loading / reset
(`ChargeSimulation.__init__`, `ChargeSimulation.reset_simulation`) and the
`Dipole` preset.  Floating-point arithmetic is idealised as real
arithmetic; numpy record arrays become lists of a `Charge` structure, and
the force accumulator array becomes a function `Nat → Vec3` updated
functionally.
-/

/-- A 3-component vector, modelling a numpy float64 triple. -/
abbrev Vec3 : Type := ℝ × ℝ × ℝ

/-- One particle record of `charge_dtype`:
`("pos", float64, 3), ("vel", float64, 3), ("q", float64), ("m", float64), ("active", bool)`. -/
structure Charge where
  pos : Vec3
  vel : Vec3
  q : ℝ
  m : ℝ
  active : Bool

instance : Inhabited Charge := ⟨⟨(0, 0, 0), (0, 0, 0), 0, 0, false⟩⟩

/-- Coulomb's constant, `k_e = 8.988e9` in `simulation.py`. -/
noncomputable def k_e : ℝ := 8.988e9

/-- Default time step, `default_dt = 0.005` in `simulation.py`. -/
noncomputable def default_dt : ℝ := 0.005

/-- The per-pair term accumulated by the inner loop of `compute_forces`:
`r = charges[j]["pos"] - charges[i]["pos"]`,
`dist = sqrt(r[0]**2 + r[1]**2 + r[2]**2) + 1e-14`,
`force_mag = k_e * charges[i]["q"] * charges[j]["q"] / dist**3`,
and the vector added to `forces[i]` (and subtracted from `forces[j]`)
is `force_mag * r`. -/
noncomputable def coulombTerm (ci cj : Charge) : Vec3 :=
  let r : Vec3 := cj.pos - ci.pos
  let dist : ℝ := Real.sqrt (r.1 ^ 2 + r.2.1 ^ 2 + r.2.2 ^ 2) + 1e-14
  (k_e * ci.q * cj.q / dist ^ 3) • r

/-- One iteration of the inner loop of `compute_forces`: skip an inactive
`j` (`continue`), otherwise `forces[i] += force_mag * r` and
`forces[j] -= force_mag * r`, performed as two sequential array writes. -/
noncomputable def innerStep (charges : List Charge) (i : Nat) (F : Nat → Vec3)
    (j : Nat) : Nat → Vec3 :=
  if (charges.getD j default).active = false then F
  else
    let t := coulombTerm (charges.getD i default) (charges.getD j default)
    let F1 := Function.update F i (F i + t)
    Function.update F1 j (F1 j - t)

/-- Inner loop of `compute_forces` for a fixed `i`: `for j in range(i + 1, n)`. -/
noncomputable def innerForces (charges : List Charge) (i : Nat) (F : Nat → Vec3) :
    Nat → Vec3 :=
  ((List.range charges.length).filter (fun j => i < j)).foldl (innerStep charges i) F

/-- One iteration of the outer loop of `compute_forces`: skip an inactive
`i` (`continue`), otherwise run the inner loop. -/
noncomputable def outerStep (charges : List Charge) (F : Nat → Vec3) (i : Nat) :
    Nat → Vec3 :=
  if (charges.getD i default).active = false then F
  else innerForces charges i F

/-- The force accumulator computed by `ChargeSimulation.compute_forces`:
`forces = np.zeros((n, 3))`, then the double loop over `i` (skipping
inactive `i`) and `j in range(i + 1, n)`. -/
noncomputable def computeForcesFun (charges : List Charge) : Nat → Vec3 :=
  (List.range charges.length).foldl (outerStep charges) (fun _ => (0 : Vec3))

/-- `ChargeSimulation.compute_forces(charges)`: the returned array of one
force 3-vector per particle. -/
noncomputable def compute_forces (charges : List Charge) : List Vec3 :=
  (List.range charges.length).map (computeForcesFun charges)

/-- The out-of-bounds test of `update_physics`:
`np.any(pos < boundary[0]) or np.any(pos > boundary[1])`. -/
def escapesBounds (bmin bmax : ℝ) (v : Vec3) : Prop :=
  v.1 < bmin ∨ v.2.1 < bmin ∨ v.2.2 < bmin ∨ bmax < v.1 ∨ bmax < v.2.1 ∨ bmax < v.2.2

noncomputable instance (bmin bmax : ℝ) (v : Vec3) : Decidable (escapesBounds bmin bmax v) := by
  unfold escapesBounds
  exact inferInstance

/-- One particle's update in `ChargeSimulation.update_physics`: if active,
`vel += forces[i] / m * dt`, then `pos += vel * dt` with the updated
velocity, then deactivate when any coordinate leaves
`[boundary[0], boundary[1]]`; inactive particles are untouched. -/
noncomputable def stepCharge (dt bmin bmax : ℝ) (f : Vec3) (c : Charge) : Charge :=
  if c.active then
    let vel := c.vel + (dt / c.m) • f
    let pos := c.pos + dt • vel
    { c with
        vel := vel
        pos := pos
        active := if escapesBounds bmin bmax pos then false else c.active }
  else c

/-- `ChargeSimulation.update_physics(charges, forces, dt, boundary)`:
the in-place loop over all particles, modelled as a map producing the
post-step array. -/
noncomputable def update_physics (charges : List Charge) (forces : Nat → Vec3)
    (dt bmin bmax : ℝ) : List Charge :=
  (List.range charges.length).map
    (fun i => stepCharge dt bmin bmax (forces i) (charges.getD i default))

/-- A 4-component RGBA color (`np.float32` quadruple), carried for rendering. -/
abbrev Color : Type := ℝ × ℝ × ℝ × ℝ

/-- A named preset entry of `preset_configs`: a charge array and a color
array. -/
structure Preset where
  name : String
  charges : List Charge
  colors : List Color

/-- The mutable simulation attributes of `ChargeSimulation` that the
physics core touches: the charge array, the per-particle trajectory
lists, the color array, the time step and the running flag. -/
structure SimState where
  charges : List Charge
  colors : List Color
  trajectories : List (List Vec3)
  dt : ℝ
  running : Bool

/-- `ChargeSimulation.__init__` restricted to the physics state: copy the
preset's charges and colors, one empty trajectory per particle,
`dt = default_dt`, paused. -/
noncomputable def initSimulation (p : Preset) : SimState :=
  { charges := p.charges
    colors := p.colors
    trajectories := List.replicate p.charges.length []
    dt := default_dt
    running := false }

/-- `ChargeSimulation.reset_simulation`: replace charges, colors and
trajectories from the (possibly new) preset; `dt` and `running` are not
touched. -/
noncomputable def reset_simulation (s : SimState) (p : Preset) : SimState :=
  { s with
      charges := p.charges
      colors := p.colors
      trajectories := List.replicate p.charges.length [] }

/-- One call of `ChargeSimulation.update`: when paused return unchanged;
otherwise `compute_forces`, `update_physics` with
`boundary = (-100000, 100000)`, then append each particle's current
(post-step) position to its trajectory. -/
noncomputable def updateTick (s : SimState) : SimState :=
  if s.running = false then s
  else
    let forces := computeForcesFun s.charges
    let charges := update_physics s.charges forces s.dt (-100000) 100000
    { s with
        charges := charges
        trajectories :=
          (List.range charges.length).map
            (fun i => s.trajectories.getD i [] ++ [(charges.getD i default).pos]) }

/-- The `"Dipole"` entry of `preset_configs`. -/
noncomputable def dipolePreset : Preset :=
  { name := "Dipole"
    charges :=
      [ { pos := (4.0, 5.0, 5.0), vel := (0.0, 0.0, 0.0), q := 5e-6, m := 1e-2,
          active := true },
        { pos := (6.0, 5.0, 5.0), vel := (0.0, 0.0, 0.0), q := -5e-6, m := 1e-2,
          active := true } ]
    colors := [(1.0, 0.0, 0.0, 0.9), (0.0, 0.0, 1.0, 0.9)] }

/-!
A small store model for the numpy arrays held by presets and by the
simulation object, precise enough to express the aliasing content of
`self.charges = self.presets[idx]["charges"].copy()`: heap cells hold
charge arrays, references are cell indices, and `.copy()` allocates a
fresh cell with the same contents.
-/

/-- A heap of numpy charge arrays; a reference is an index into `cells`. -/
structure Heap where
  cells : List (List Charge)

/-- Dereference: the array stored at `r`. -/
def Heap.read (h : Heap) (r : Nat) : List Charge :=
  h.cells.getD r []

/-- In-place mutation of the array stored at `r`. -/
def Heap.write (h : Heap) (r : Nat) (v : List Charge) : Heap :=
  ⟨h.cells.set r v⟩

/-- Allocate a fresh array, returning the new heap and the fresh reference. -/
def Heap.alloc (h : Heap) (v : List Charge) : Heap × Nat :=
  (⟨h.cells ++ [v]⟩, h.cells.length)

/-- `arr.copy()`: allocate a fresh array holding the same contents. -/
def Heap.copyRef (h : Heap) (r : Nat) : Heap × Nat :=
  h.alloc (h.read r)

/-- Loading a preset's charge array in `__init__` / `reset_simulation`:
`self.presets[idx]["charges"].copy()` — a copy, not the preset's own
reference. -/
def loadChargesRef (h : Heap) (presetRef : Nat) : Heap × Nat :=
  h.copyRef presetRef

/-!
Spec-side description of the force computation, used to state the
refinement claim about `compute_forces`: the force on particle `k` is the
sum, over every unordered pair `(i, j)` with `i < j` in which both
particles are active, of `k_e * q_i * q_j / d^3` times the displacement
`r = pos_j - pos_i` when `k = i`, of its negation when `k = j`, and of
zero otherwise, where `d` is the Euclidean norm of `r` plus the softening
term `1e-14`.
-/

/-- Spec-side contribution of the pair `(i, j)` to particle `k`'s force,
following the specification's wording of the algorithm. -/
noncomputable def specContrib (charges : List Charge) (k i j : Nat) : Vec3 :=
  let ci := charges.getD i default
  let cj := charges.getD j default
  if ci.active = true ∧ cj.active = true then
    let r : Vec3 := cj.pos - ci.pos
    let d : ℝ := Real.sqrt (r.1 ^ 2 + r.2.1 ^ 2 + r.2.2 ^ 2) + 1e-14
    let s : ℝ := (8.988e9 : ℝ) * ci.q * cj.q / d ^ 3
    if k = i then s • r else if k = j then -(s • r) else 0
  else 0

/-- Spec-side net force on particle `k`: the double sum over all pairs
`i < j` drawn from `range n`. -/
noncomputable def specForce (charges : List Charge) (k : Nat) : Vec3 :=
  ((List.range charges.length).map
    (fun i =>
      (((List.range charges.length).filter (fun j => i < j)).map
        (fun j => specContrib charges k i j)).sum)).sum

lemma specContrib_eq (charges : List Charge) (k i j : Nat) :
    specContrib charges k i j =
      if ((charges.getD i default).active = true ∧
          (charges.getD j default).active = true) then
        (if k = i then coulombTerm (charges.getD i default) (charges.getD j default)
         else if k = j then
           -(coulombTerm (charges.getD i default) (charges.getD j default))
         else 0)
      else 0 := by
  simp only [specContrib, coulombTerm, k_e]

lemma specContrib_of_inactive_left (charges : List Charge) (k i j : Nat)
    (h : (charges.getD i default).active = false) :
    specContrib charges k i j = 0 := by
  rw [specContrib_eq, if_neg]
  intro hc
  rw [h] at hc
  exact absurd hc.1 (by simp)

lemma specContrib_of_inactive_right (charges : List Charge) (k i j : Nat)
    (h : (charges.getD j default).active = false) :
    specContrib charges k i j = 0 := by
  rw [specContrib_eq, if_neg]
  intro hc
  rw [h] at hc
  exact absurd hc.2 (by simp)

lemma innerStep_apply (charges : List Charge) (i j : Nat) (F : Nat → Vec3)
    (hij : i ≠ j) (hact : (charges.getD i default).active = true) (k : Nat) :
    innerStep charges i F j k = F k + specContrib charges k i j := by
  rw [specContrib_eq]
  by_cases hj : (charges.getD j default).active = false
  · rw [if_neg (by intro hc; rw [hj] at hc; exact absurd hc.2 (by simp))]
    rw [add_zero]
    unfold innerStep
    rw [if_pos hj]
  · have hj' : (charges.getD j default).active = true := by
      cases h : (charges.getD j default).active
      · exact absurd h hj
      · rfl
    rw [if_pos ⟨hact, hj'⟩]
    unfold innerStep
    rw [if_neg (by rw [hj']; simp)]
    have hji : j ≠ i := Ne.symm hij
    by_cases hkj : k = j
    · subst hkj
      simp [Function.update_apply, hij, hji, sub_eq_add_neg]
    · by_cases hki : k = i
      · subst hki
        simp [Function.update_apply, hij, hji, hkj]
      · simp [Function.update_apply, hki, hkj]

lemma innerStep_foldl_apply (charges : List Charge) (i : Nat)
    (hact : (charges.getD i default).active = true) (L : List Nat)
    (hL : ∀ j ∈ L, i ≠ j) (F : Nat → Vec3) (k : Nat) :
    (L.foldl (innerStep charges i) F) k
      = F k + (L.map (fun j => specContrib charges k i j)).sum := by
  induction L generalizing F with
  | nil => simp
  | cons j L ih =>
    rw [List.foldl_cons, ih (fun x hx => hL x (List.mem_cons_of_mem _ hx)),
      innerStep_apply charges i j F (hL j (List.mem_cons_self _ _)) hact k,
      List.map_cons, List.sum_cons, add_assoc]

lemma innerForces_apply (charges : List Charge) (i : Nat)
    (hact : (charges.getD i default).active = true) (F : Nat → Vec3) (k : Nat) :
    innerForces charges i F k
      = F k + (((List.range charges.length).filter (fun j => i < j)).map
          (fun j => specContrib charges k i j)).sum := by
  unfold innerForces
  refine innerStep_foldl_apply charges i hact _ ?_ F k
  intro j hj
  have : i < j := by
    have := List.mem_filter.mp hj
    exact of_decide_eq_true this.2
  omega

lemma outerStep_apply (charges : List Charge) (F : Nat → Vec3) (i k : Nat) :
    outerStep charges F i k
      = F k + (((List.range charges.length).filter (fun j => i < j)).map
          (fun j => specContrib charges k i j)).sum := by
  unfold outerStep
  by_cases hi : (charges.getD i default).active = false
  · rw [if_pos hi]
    have hz : (((List.range charges.length).filter (fun j => i < j)).map
        (fun j => specContrib charges k i j)).sum = 0 := by
      apply List.sum_eq_zero
      intro x hx
      rcases List.mem_map.mp hx with ⟨j, _, rfl⟩
      exact specContrib_of_inactive_left charges k i j hi
    rw [hz, add_zero]
  · have hi' : (charges.getD i default).active = true := by
      cases h : (charges.getD i default).active
      · exact absurd h hi
      · rfl
    rw [if_neg (by rw [hi']; simp)]
    exact innerForces_apply charges i hi' F k

lemma outerStep_foldl_apply (charges : List Charge) (L : List Nat)
    (F : Nat → Vec3) (k : Nat) :
    (L.foldl (outerStep charges) F) k
      = F k + (L.map (fun i =>
          (((List.range charges.length).filter (fun j => i < j)).map
            (fun j => specContrib charges k i j)).sum)).sum := by
  induction L generalizing F with
  | nil => simp
  | cons i L ih =>
    rw [List.foldl_cons, ih, outerStep_apply charges F i k, List.map_cons,
      List.sum_cons, add_assoc]

/-- The central refinement lemma: the imperative double loop of
`compute_forces` computes, for every index `k`, exactly the spec-side
pairwise sum. -/
lemma computeForcesFun_eq_specForce (charges : List Charge) (k : Nat) :
    computeForcesFun charges k = specForce charges k := by
  unfold computeForcesFun specForce
  rw [outerStep_foldl_apply, zero_add]

lemma getD_map_range {α : Type} (n : Nat) (f : Nat → α) (k : Nat) (hk : k < n)
    (d : α) : ((List.range n).map f).getD k d = f k := by
  rw [List.getD_eq_getElem?_getD, List.getElem?_map, List.getElem?_range hk]
  rfl

lemma compute_forces_length (charges : List Charge) :
    (compute_forces charges).length = charges.length := by
  simp [compute_forces]

lemma compute_forces_getD (charges : List Charge) (k : Nat)
    (hk : k < charges.length) :
    (compute_forces charges).getD k 0 = computeForcesFun charges k :=
  getD_map_range _ _ _ hk _

lemma update_physics_length (charges : List Charge) (forces : Nat → Vec3)
    (dt bmin bmax : ℝ) :
    (update_physics charges forces dt bmin bmax).length = charges.length := by
  simp [update_physics]

lemma update_physics_getD (charges : List Charge) (forces : Nat → Vec3)
    (dt bmin bmax : ℝ) (i : Nat) (hi : i < charges.length) :
    (update_physics charges forces dt bmin bmax).getD i default
      = stepCharge dt bmin bmax (forces i) (charges.getD i default) :=
  getD_map_range _ _ _ hi _

lemma stepCharge_inactive (dt bmin bmax : ℝ) (f : Vec3) (c : Charge)
    (h : c.active = false) : stepCharge dt bmin bmax f c = c := by
  unfold stepCharge
  rw [if_neg (by rw [h]; simp)]

lemma stepCharge_active (dt bmin bmax : ℝ) (f : Vec3) (c : Charge)
    (h : c.active = true) :
    stepCharge dt bmin bmax f c =
      { c with
          vel := c.vel + (dt / c.m) • f
          pos := c.pos + dt • (c.vel + (dt / c.m) • f)
          active :=
            if escapesBounds bmin bmax (c.pos + dt • (c.vel + (dt / c.m) • f))
            then false else c.active } := by
  unfold stepCharge
  rw [if_pos h]

lemma specContrib_of_ne (charges : List Charge) (k i j : Nat) (hki : k ≠ i)
    (hkj : k ≠ j) : specContrib charges k i j = 0 := by
  rw [specContrib_eq]
  by_cases hc : ((charges.getD i default).active = true ∧
      (charges.getD j default).active = true)
  · rw [if_pos hc, if_neg hki, if_neg hkj]
  · rw [if_neg hc]

lemma computeForcesFun_of_inactive (charges : List Charge) (k : Nat)
    (hk : (charges.getD k default).active = false) :
    computeForcesFun charges k = 0 := by
  rw [computeForcesFun_eq_specForce]
  unfold specForce
  apply List.sum_eq_zero
  intro x hx
  rcases List.mem_map.mp hx with ⟨a, _, rfl⟩
  apply List.sum_eq_zero
  intro y hy
  rcases List.mem_map.mp hy with ⟨b, _, rfl⟩
  by_cases hka : k = a
  · exact specContrib_of_inactive_left charges k a b (hka ▸ hk)
  · by_cases hkb : k = b
    · exact specContrib_of_inactive_right charges k a b (hkb ▸ hk)
    · exact specContrib_of_ne charges k a b hka hkb

lemma computeForcesFun_single_active (charges : List Charge) (i : Nat)
    (h : ∀ j, j < charges.length → j ≠ i →
      (charges.getD j default).active = false) (k : Nat) :
    computeForcesFun charges k = 0 := by
  rw [computeForcesFun_eq_specForce]
  unfold specForce
  apply List.sum_eq_zero
  intro x hx
  rcases List.mem_map.mp hx with ⟨a, ha, rfl⟩
  apply List.sum_eq_zero
  intro y hy
  rcases List.mem_map.mp hy with ⟨b, hb, rfl⟩
  have han : a < charges.length := List.mem_range.mp ha
  have hbf := List.mem_filter.mp hb
  have hbn : b < charges.length := List.mem_range.mp hbf.1
  have hab : a < b := of_decide_eq_true hbf.2
  by_cases hai : a = i
  · exact specContrib_of_inactive_right charges k a b (h b hbn (by omega))
  · exact specContrib_of_inactive_left charges k a b (h a han hai)

lemma getD_set_ne (charges : List Charge) (i b : Nat) (c' : Charge)
    (h : i ≠ b) : (charges.set i c').getD b default = charges.getD b default := by
  rw [List.getD_eq_getElem?_getD, List.getD_eq_getElem?_getD,
    List.getElem?_set_ne h]

lemma getD_set_self_inactive (charges : List Charge) (i : Nat) (c' : Charge)
    (hc' : c'.active = false) :
    ((charges.set i c').getD i default).active = false := by
  rw [List.getD_eq_getElem?_getD, List.getElem?_set_self']
  cases h : charges[i]? with
  | none => rfl
  | some c => exact hc'

lemma specContrib_set_inactive (charges : List Charge) (i : Nat) (c' : Charge)
    (hi : (charges.getD i default).active = false) (hc' : c'.active = false)
    (k a b : Nat) :
    specContrib (charges.set i c') k a b = specContrib charges k a b := by
  by_cases hai : a = i
  · subst hai
    rw [specContrib_of_inactive_left _ _ _ _ (getD_set_self_inactive charges a c' hc'),
      specContrib_of_inactive_left _ _ _ _ hi]
  · by_cases hbi : b = i
    · subst hbi
      rw [specContrib_of_inactive_right _ _ _ _ (getD_set_self_inactive charges b c' hc'),
        specContrib_of_inactive_right _ _ _ _ hi]
    · rw [specContrib_eq, specContrib_eq,
        getD_set_ne charges i a c' (fun h => hai h.symm),
        getD_set_ne charges i b c' (fun h => hbi h.symm)]

/-- Replacing an inactive particle by any other inactive particle leaves
the whole force computation unchanged: inactive particles contribute
nothing to anyone's force. -/
lemma computeForcesFun_set_inactive (charges : List Charge) (i : Nat)
    (c' : Charge) (hi : (charges.getD i default).active = false)
    (hc' : c'.active = false) (k : Nat) :
    computeForcesFun (charges.set i c') k = computeForcesFun charges k := by
  rw [computeForcesFun_eq_specForce, computeForcesFun_eq_specForce]
  unfold specForce
  rw [List.length_set]
  apply congrArg List.sum
  apply List.map_congr_left
  intro a _
  apply congrArg List.sum
  apply List.map_congr_left
  intro b _
  exact specContrib_set_inactive charges i c' hi hc' k a b

lemma specForce_pair (a b : Charge) (k : Nat) :
    specForce [a, b] k = specContrib [a, b] k 0 1 := by
  have h2 : List.range (List.length [a, b]) = [0, 1] := rfl
  unfold specForce
  rw [h2]
  have hf0 : List.filter (fun j => decide (0 < j)) [0, 1] = [1] := rfl
  have hf1 : List.filter (fun j => decide (1 < j)) [0, 1] = [] := rfl
  simp only [List.map_cons, List.map_nil, hf0, hf1, List.sum_cons, List.sum_nil,
    add_zero]

lemma computeForcesFun_pair_fst (a b : Charge) (ha : a.active = true)
    (hb : b.active = true) :
    computeForcesFun [a, b] 0 = coulombTerm a b := by
  rw [computeForcesFun_eq_specForce, specForce_pair, specContrib_eq,
    if_pos ⟨ha, hb⟩, if_pos rfl]
  rfl

lemma computeForcesFun_pair_snd (a b : Charge) (ha : a.active = true)
    (hb : b.active = true) :
    computeForcesFun [a, b] 1 = -(coulombTerm a b) := by
  rw [computeForcesFun_eq_specForce, specForce_pair, specContrib_eq,
    if_pos ⟨ha, hb⟩, if_neg (by omega : (1 : Nat) ≠ 0), if_pos rfl]
  rfl

/-- The scalar `force_mag * r_x` for the Dipole pair: separation 2 along x,
softened distance `2 + 1e-14`. -/
noncomputable def dipoleForceX : ℝ :=
  k_e * 5e-6 * (-5e-6) / ((2 : ℝ) + 1e-14) ^ 3 * 2

lemma dipole_coulombTerm :
    coulombTerm (dipolePreset.charges.getD 0 default)
        (dipolePreset.charges.getD 1 default)
      = (dipoleForceX, 0, 0) := by
  have hr : (dipolePreset.charges.getD 1 default).pos -
      (dipolePreset.charges.getD 0 default).pos = ((2:ℝ), (0:ℝ), (0:ℝ)) := by
    norm_num [dipolePreset, Prod.mk_sub_mk]
  have hs : Real.sqrt (((2:ℝ)) ^ 2 + ((0:ℝ)) ^ 2 + ((0:ℝ)) ^ 2) = 2 := by
    rw [show ((2:ℝ)) ^ 2 + ((0:ℝ)) ^ 2 + ((0:ℝ)) ^ 2 = 2 ^ 2 by norm_num,
      Real.sqrt_sq (by norm_num : (0:ℝ) ≤ 2)]
  simp only [coulombTerm, hr]
  rw [hs]
  norm_num [dipolePreset, dipoleForceX, Prod.smul_mk, smul_eq_mul]

lemma dipole_force0 :
    computeForcesFun dipolePreset.charges 0 = (dipoleForceX, 0, 0) := by
  have h : computeForcesFun dipolePreset.charges 0
      = coulombTerm (dipolePreset.charges.getD 0 default)
          (dipolePreset.charges.getD 1 default) :=
    computeForcesFun_pair_fst _ _ rfl rfl
  rw [h, dipole_coulombTerm]

lemma dipole_step0 :
    ((update_physics dipolePreset.charges
        (computeForcesFun dipolePreset.charges) default_dt
        (-100000) 100000).getD 0 default).vel
      = (default_dt / 1e-2 * dipoleForceX, 0, 0) ∧
    ((update_physics dipolePreset.charges
        (computeForcesFun dipolePreset.charges) default_dt
        (-100000) 100000).getD 0 default).pos
      = (4 + default_dt * (default_dt / 1e-2 * dipoleForceX), 5, 5) := by
  rw [update_physics_getD _ _ _ _ _ 0 (by norm_num [dipolePreset]),
    stepCharge_active _ _ _ _ _ rfl, dipole_force0]
  constructor
  · show (dipolePreset.charges.getD 0 default).vel +
      (default_dt / (dipolePreset.charges.getD 0 default).m) • ((dipoleForceX, 0, 0) : Vec3) = _
    norm_num [dipolePreset, Prod.smul_mk, smul_eq_mul, Prod.mk_add_mk]
  · show (dipolePreset.charges.getD 0 default).pos +
      default_dt • ((dipolePreset.charges.getD 0 default).vel +
        (default_dt / (dipolePreset.charges.getD 0 default).m) • ((dipoleForceX, 0, 0) : Vec3)) = _
    norm_num [dipolePreset, Prod.smul_mk, smul_eq_mul, Prod.mk_add_mk]

lemma updateTick_not_running (s : SimState) (h : s.running = false) :
    updateTick s = s := by
  unfold updateTick
  rw [if_pos h]

lemma updateTick_running_def (s : SimState) (h : s.running = true) :
    updateTick s =
      { s with
          charges := update_physics s.charges (computeForcesFun s.charges)
            s.dt (-100000) 100000
          trajectories :=
            (List.range (update_physics s.charges (computeForcesFun s.charges)
                s.dt (-100000) 100000).length).map
              (fun i => s.trajectories.getD i [] ++
                [((update_physics s.charges (computeForcesFun s.charges)
                    s.dt (-100000) 100000).getD i default).pos]) } := by
  unfold updateTick
  rw [if_neg (by rw [h]; simp)]

lemma updateTick_running_flag (s : SimState) :
    (updateTick s).running = s.running := by
  unfold updateTick
  by_cases h : s.running = false
  · rw [if_pos h]
  · rw [if_neg h]

lemma updateTick_length (s : SimState) :
    (updateTick s).charges.length = s.charges.length := by
  unfold updateTick
  by_cases h : s.running = false
  · rw [if_pos h]
  · rw [if_neg h]
    exact update_physics_length _ _ _ _ _

lemma updateTick_charges_getD (s : SimState) (h : s.running = true) (i : Nat)
    (hi : i < s.charges.length) :
    (updateTick s).charges.getD i default
      = stepCharge s.dt (-100000) 100000 (computeForcesFun s.charges i)
          (s.charges.getD i default) := by
  rw [updateTick_running_def s h]
  exact update_physics_getD _ _ _ _ _ i hi

lemma updateTick_traj (s : SimState) (h : s.running = true) (i : Nat)
    (hi : i < s.charges.length) :
    (updateTick s).trajectories.getD i []
      = s.trajectories.getD i [] ++ [((updateTick s).charges.getD i default).pos] := by
  rw [updateTick_running_def s h]
  have hi' : i < (update_physics s.charges (computeForcesFun s.charges)
      s.dt (-100000) 100000).length := by
    rw [update_physics_length]
    exact hi
  exact getD_map_range _ _ i hi' _

lemma updateTick_inactive (s : SimState) (i : Nat) (hi : i < s.charges.length)
    (h : (s.charges.getD i default).active = false) :
    (updateTick s).charges.getD i default = s.charges.getD i default := by
  by_cases hr : s.running = false
  · rw [updateTick_not_running s hr]
  · have hr' : s.running = true := by
      cases hh : s.running
      · exact absurd hh hr
      · rfl
    rw [updateTick_charges_getD s hr' i hi]
    exact stepCharge_inactive _ _ _ _ _ h

lemma updateTick_iterate_length (s : SimState) (n : Nat) :
    (updateTick^[n] s).charges.length = s.charges.length := by
  induction n with
  | zero => rfl
  | succ n ih => rw [Function.iterate_succ_apply', updateTick_length, ih]

lemma updateTick_iterate_running (s : SimState) (n : Nat) :
    (updateTick^[n] s).running = s.running := by
  induction n with
  | zero => rfl
  | succ n ih => rw [Function.iterate_succ_apply', updateTick_running_flag, ih]

lemma updateTick_iterate_inactive (s : SimState) (i : Nat)
    (hi : i < s.charges.length)
    (h : (s.charges.getD i default).active = false) (n : Nat) :
    (updateTick^[n] s).charges.getD i default = s.charges.getD i default := by
  induction n with
  | zero => rfl
  | succ n ih =>
    rw [Function.iterate_succ_apply',
      updateTick_inactive (updateTick^[n] s) i
        (by rw [updateTick_iterate_length]; exact hi) (by rw [ih]; exact h), ih]

lemma updateTick_iterate_traj_length (s : SimState) (h : s.running = true)
    (i : Nat) (hi : i < s.charges.length) (n : Nat) :
    ((updateTick^[n] s).trajectories.getD i []).length
      = (s.trajectories.getD i []).length + n := by
  induction n with
  | zero => rfl
  | succ n ih =>
    rw [Function.iterate_succ_apply',
      updateTick_traj (updateTick^[n] s)
        (by rw [updateTick_iterate_running]; exact h) i
        (by rw [updateTick_iterate_length]; exact hi),
      List.length_append, ih]
    rfl

lemma getD_replicate_nil (n i : Nat) :
    (List.replicate n ([] : List Vec3)).getD i [] = [] := by
  rw [List.getD_eq_getElem?_getD, List.getElem?_replicate]
  by_cases h : i < n
  · rw [if_pos h]
    rfl
  · rw [if_neg h]
    rfl

lemma Heap.read_alloc_old (h : Heap) (v : List Charge) (k : Nat)
    (hk : k < h.cells.length) : (h.alloc v).1.read k = h.read k := by
  unfold Heap.alloc Heap.read
  rw [List.getD_eq_getElem?_getD, List.getD_eq_getElem?_getD,
    List.getElem?_append_left hk]

lemma Heap.read_alloc_new (h : Heap) (v : List Charge) :
    (h.alloc v).1.read (h.alloc v).2 = v := by
  unfold Heap.alloc Heap.read
  rw [List.getD_eq_getElem?_getD, List.getElem?_concat_length]
  rfl

lemma Heap.read_write_ne (h : Heap) (r k : Nat) (v : List Charge)
    (hrk : r ≠ k) : (h.write r v).read k = h.read k := by
  unfold Heap.write Heap.read
  rw [List.getD_eq_getElem?_getD, List.getD_eq_getElem?_getD,
    List.getElem?_set_ne hrk]

/-!
Claim theorems.
-/

/-- C2: `compute_forces` returns one 3-vector per particle, same order and
length as its input; the force on particle `k` is the spec-side sum over
every unordered pair `(i, j)` with `i < j` in which both particles are
active of `k_e * q_i * q_j / d^3` times `r = pos_j - pos_i` into `i` and
its negation into `j`, with `d` the Euclidean norm of `r` plus the
softening `1e-14` and `k_e = 8.988e9`; inactive particles contribute zero
force and receive a zero force vector. -/
theorem compute_forces_refines_spec (charges : List Charge) :
    (compute_forces charges).length = charges.length ∧
    (∀ k, k < charges.length →
      (compute_forces charges).getD k 0 = specForce charges k) ∧
    (∀ k, k < charges.length → (charges.getD k default).active = false →
      (compute_forces charges).getD k 0 = 0) := by
  refine ⟨compute_forces_length charges, ?_, ?_⟩
  · intro k hk
    rw [compute_forces_getD charges k hk, computeForcesFun_eq_specForce]
  · intro k hk hinact
    rw [compute_forces_getD charges k hk,
      computeForcesFun_of_inactive charges k hinact]

/-- Witness for C2, at the Dipole charge array and index 0. -/
theorem compute_forces_refines_spec_witness :
    (compute_forces dipolePreset.charges).length
        = dipolePreset.charges.length ∧
    ((0 : Nat) < dipolePreset.charges.length ∧
      (compute_forces dipolePreset.charges).getD 0 0
        = specForce dipolePreset.charges 0) :=
  ⟨(compute_forces_refines_spec dipolePreset.charges).1,
    by decide,
    (compute_forces_refines_spec dipolePreset.charges).2.1 0 (by decide)⟩

/-- C6: for a pair of active particles in isolation the forces are exact
opposites (Newton's third law), produced from a single pair computation. -/
theorem newton_third_law_pair (a b : Charge) (ha : a.active = true)
    (hb : b.active = true) :
    (compute_forces [a, b]).getD 0 0 = -((compute_forces [a, b]).getD 1 0) := by
  rw [compute_forces_getD [a, b] 0 (by simp),
    compute_forces_getD [a, b] 1 (by simp),
    computeForcesFun_pair_fst a b ha hb,
    computeForcesFun_pair_snd a b ha hb, neg_neg]

/-- Witness for C6, at the two Dipole charges. -/
theorem newton_third_law_pair_witness :
    ((dipolePreset.charges.getD 0 default).active = true ∧
      (dipolePreset.charges.getD 1 default).active = true) ∧
    (compute_forces [dipolePreset.charges.getD 0 default,
        dipolePreset.charges.getD 1 default]).getD 0 0
      = -((compute_forces [dipolePreset.charges.getD 0 default,
          dipolePreset.charges.getD 1 default]).getD 1 0) :=
  ⟨⟨rfl, rfl⟩, newton_third_law_pair _ _ rfl rfl⟩

/-- C3: for every active particle `i`, one integrator step performs
semi-implicit Euler: the new velocity is `vel_i + forces_i / m_i * dt`,
and the new position is `pos_i + (new velocity) * dt`, using the already
updated velocity; moreover when no other particle is active the computed
force on `i` is zero and one step leaves the velocity unchanged and
displaces the position by exactly `velocity * dt`. -/
theorem update_physics_semi_implicit (charges : List Charge)
    (forces : Nat → Vec3) (dt bmin bmax : ℝ) (i : Nat)
    (hi : i < charges.length)
    (hact : (charges.getD i default).active = true) :
    (((update_physics charges forces dt bmin bmax).getD i default).vel
        = (charges.getD i default).vel
          + (dt / (charges.getD i default).m) • forces i
      ∧ ((update_physics charges forces dt bmin bmax).getD i default).pos
        = (charges.getD i default).pos
          + dt • ((update_physics charges forces dt bmin bmax).getD i
              default).vel)
    ∧ ((∀ j, j < charges.length → j ≠ i →
          (charges.getD j default).active = false) →
        computeForcesFun charges i = 0
        ∧ ((update_physics charges (computeForcesFun charges) dt bmin
              bmax).getD i default).vel = (charges.getD i default).vel
        ∧ ((update_physics charges (computeForcesFun charges) dt bmin
              bmax).getD i default).pos
          = (charges.getD i default).pos
            + dt • (charges.getD i default).vel) := by
  have hstep : ∀ f : Nat → Vec3,
      (update_physics charges f dt bmin bmax).getD i default
        = stepCharge dt bmin bmax (f i) (charges.getD i default) :=
    fun f => update_physics_getD charges f dt bmin bmax i hi
  constructor
  · rw [hstep forces, stepCharge_active _ _ _ _ _ hact]
    exact ⟨rfl, rfl⟩
  · intro hsingle
    have hF : computeForcesFun charges i = 0 :=
      computeForcesFun_single_active charges i hsingle i
    refine ⟨hF, ?_, ?_⟩
    · rw [hstep _, stepCharge_active _ _ _ _ _ hact, hF]
      show (charges.getD i default).vel
        + (dt / (charges.getD i default).m) • (0 : Vec3) = _
      rw [smul_zero, add_zero]
    · rw [hstep _, stepCharge_active _ _ _ _ _ hact, hF]
      show (charges.getD i default).pos
        + dt • ((charges.getD i default).vel
          + (dt / (charges.getD i default).m) • (0 : Vec3)) = _
      rw [smul_zero, add_zero]

/-- A single isolated active particle, used to instantiate theorems. -/
noncomputable def soloCharge : Charge :=
  { pos := (1.0, 2.0, 3.0), vel := (0.5, 0.0, 0.0), q := 1e-6, m := 1e-3,
    active := true }

/-- Witness for C3: the single-particle list `[soloCharge]` with zero
forces, `dt = 1`, boundary `[-10, 10]`. -/
theorem update_physics_semi_implicit_witness :
    ((0 : Nat) < List.length [soloCharge] ∧
      (List.getD [soloCharge] 0 default).active = true) ∧
    ((((update_physics [soloCharge] (fun _ => (0 : Vec3)) 1 (-10) 10).getD 0
          default).vel
        = (List.getD [soloCharge] 0 default).vel
          + ((1 : ℝ) / (List.getD [soloCharge] 0 default).m) • (0 : Vec3)
      ∧ ((update_physics [soloCharge] (fun _ => (0 : Vec3)) 1 (-10) 10).getD 0
            default).pos
        = (List.getD [soloCharge] 0 default).pos
          + (1 : ℝ) • ((update_physics [soloCharge] (fun _ => (0 : Vec3)) 1
              (-10) 10).getD 0 default).vel)
    ∧ ((∀ j, j < List.length [soloCharge] → j ≠ 0 →
          (List.getD [soloCharge] j default).active = false) →
        computeForcesFun [soloCharge] 0 = 0
        ∧ ((update_physics [soloCharge] (computeForcesFun [soloCharge]) 1
              (-10) 10).getD 0 default).vel
          = (List.getD [soloCharge] 0 default).vel
        ∧ ((update_physics [soloCharge] (computeForcesFun [soloCharge]) 1
              (-10) 10).getD 0 default).pos
          = (List.getD [soloCharge] 0 default).pos
            + (1 : ℝ) • (List.getD [soloCharge] 0 default).vel)) :=
  ⟨⟨by decide, rfl⟩,
    update_physics_semi_implicit [soloCharge] (fun _ => (0 : Vec3)) 1 (-10) 10 0
      (by decide) rfl⟩

/-- C4: an active particle whose post-update position escapes the
boundary in any coordinate is deactivated and left at exactly the
unclamped Euler position, with the unclamped Euler velocity, and the
array keeps its length (the particle is not removed). -/
theorem boundary_hard_cutoff (charges : List Charge) (forces : Nat → Vec3)
    (dt bmin bmax : ℝ) (i : Nat) (hi : i < charges.length)
    (hact : (charges.getD i default).active = true)
    (hout : escapesBounds bmin bmax
      ((charges.getD i default).pos
        + dt • ((charges.getD i default).vel
          + (dt / (charges.getD i default).m) • forces i))) :
    ((update_physics charges forces dt bmin bmax).getD i default).active
        = false
    ∧ ((update_physics charges forces dt bmin bmax).getD i default).pos
      = (charges.getD i default).pos
        + dt • ((charges.getD i default).vel
          + (dt / (charges.getD i default).m) • forces i)
    ∧ ((update_physics charges forces dt bmin bmax).getD i default).vel
      = (charges.getD i default).vel
        + (dt / (charges.getD i default).m) • forces i
    ∧ (update_physics charges forces dt bmin bmax).length = charges.length := by
  rw [update_physics_getD charges forces dt bmin bmax i hi,
    stepCharge_active _ _ _ _ _ hact]
  refine ⟨?_, rfl, rfl, update_physics_length charges forces dt bmin bmax⟩
  show (if escapesBounds bmin bmax
      ((charges.getD i default).pos
        + dt • ((charges.getD i default).vel
          + (dt / (charges.getD i default).m) • forces i)) then false
    else (charges.getD i default).active) = false
  rw [if_pos hout]

/-- A particle headed out of a small test boundary. -/
noncomputable def escapeCharge : Charge :=
  { pos := (0.0, 0.0, 0.0), vel := (1.0, 0.0, 0.0), q := 0, m := 1,
    active := true }

/-- Witness for C4: `escapeCharge` crosses `x = 1` in one step of `dt = 2`. -/
theorem boundary_hard_cutoff_witness :
    ((0 : Nat) < List.length [escapeCharge] ∧
      (List.getD [escapeCharge] 0 default).active = true ∧
      escapesBounds (-1) 1
        ((List.getD [escapeCharge] 0 default).pos
          + (2 : ℝ) • ((List.getD [escapeCharge] 0 default).vel
            + ((2 : ℝ) / (List.getD [escapeCharge] 0 default).m) • (0 : Vec3))))
    ∧ (((update_physics [escapeCharge] (fun _ => (0 : Vec3)) 2 (-1) 1).getD 0
          default).active = false
      ∧ ((update_physics [escapeCharge] (fun _ => (0 : Vec3)) 2 (-1) 1).getD 0
          default).pos
        = (List.getD [escapeCharge] 0 default).pos
          + (2 : ℝ) • ((List.getD [escapeCharge] 0 default).vel
            + ((2 : ℝ) / (List.getD [escapeCharge] 0 default).m) • (0 : Vec3))
      ∧ ((update_physics [escapeCharge] (fun _ => (0 : Vec3)) 2 (-1) 1).getD 0
          default).vel
        = (List.getD [escapeCharge] 0 default).vel
          + ((2 : ℝ) / (List.getD [escapeCharge] 0 default).m) • (0 : Vec3)
      ∧ (update_physics [escapeCharge] (fun _ => (0 : Vec3)) 2 (-1) 1).length
        = List.length [escapeCharge]) :=
  ⟨⟨by decide, rfl,
      by norm_num [escapeCharge, escapesBounds, Prod.mk_add_mk, Prod.smul_mk,
        smul_eq_mul]⟩,
    boundary_hard_cutoff [escapeCharge] (fun _ => (0 : Vec3)) 2 (-1) 1 0
      (by decide) rfl
      (by norm_num [escapeCharge, escapesBounds, Prod.mk_add_mk, Prod.smul_mk,
        smul_eq_mul])⟩

/-- C10: the boundary test is strict: an active particle stays active
exactly when every coordinate of the post-update position lies in the
closed interval `[bmin, bmax]`; a coordinate exactly equal to a bound
does not deactivate. -/
theorem boundary_test_is_strict (dt bmin bmax : ℝ) (f : Vec3) (c : Charge)
    (hact : c.active = true) :
    ((stepCharge dt bmin bmax f c).active = true ↔
      (bmin ≤ (c.pos + dt • (c.vel + (dt / c.m) • f)).1 ∧
       bmin ≤ (c.pos + dt • (c.vel + (dt / c.m) • f)).2.1 ∧
       bmin ≤ (c.pos + dt • (c.vel + (dt / c.m) • f)).2.2 ∧
       (c.pos + dt • (c.vel + (dt / c.m) • f)).1 ≤ bmax ∧
       (c.pos + dt • (c.vel + (dt / c.m) • f)).2.1 ≤ bmax ∧
       (c.pos + dt • (c.vel + (dt / c.m) • f)).2.2 ≤ bmax)) := by
  rw [stepCharge_active dt bmin bmax f c hact]
  show (if escapesBounds bmin bmax (c.pos + dt • (c.vel + (dt / c.m) • f))
      then false else c.active) = true ↔ _
  by_cases h : escapesBounds bmin bmax (c.pos + dt • (c.vel + (dt / c.m) • f))
  · rw [if_pos h]
    unfold escapesBounds at h
    constructor
    · intro hf
      exact absurd hf (by simp)
    · intro hc
      rcases h with h | h | h | h | h | h <;> exfalso <;>
        linarith [hc.1, hc.2.1, hc.2.2.1, hc.2.2.2.1, hc.2.2.2.2.1,
          hc.2.2.2.2.2]
  · rw [if_neg h, hact]
    unfold escapesBounds at h
    push_neg at h
    exact ⟨fun _ => h, fun _ => rfl⟩

/-- A particle that lands exactly on the boundary face `x = 1`. -/
noncomputable def boundaryCharge : Charge :=
  { pos := (0.0, 0.0, 0.0), vel := (1.0, 0.0, 0.0), q := 0, m := 1,
    active := true }

/-- Witness for C10: after one step `boundaryCharge` sits exactly at
`x = bmax = 1` and remains active. -/
theorem boundary_test_is_strict_witness :
    boundaryCharge.active = true ∧
    (stepCharge 1 (-1) 1 (0 : Vec3) boundaryCharge).active = true := by
  refine ⟨rfl, ?_⟩
  apply (boundary_test_is_strict 1 (-1) 1 (0 : Vec3) boundaryCharge rfl).mpr
  norm_num [boundaryCharge, Prod.mk_add_mk, Prod.smul_mk, smul_eq_mul]

/-- C5: deactivation is permanent and monotonic: an inactive particle is
left completely untouched by the integrator (this tick and, iterated, all
future ticks), contributes nothing to any particle's force (it may be
replaced by any other inactive particle without changing the force
output, and receives zero force itself), and no step of the per-tick loop
turns an inactive particle active. -/
theorem deactivation_permanent (charges : List Charge) (forces : Nat → Vec3)
    (dt bmin bmax : ℝ) (i : Nat) (hi : i < charges.length)
    (hinact : (charges.getD i default).active = false) :
    (update_physics charges forces dt bmin bmax).getD i default
        = charges.getD i default
    ∧ computeForcesFun charges i = 0
    ∧ (∀ c' : Charge, c'.active = false → ∀ k,
        computeForcesFun (charges.set i c') k = computeForcesFun charges k)
    ∧ (∀ j, j < charges.length →
        ((update_physics charges forces dt bmin bmax).getD j default).active
          = true → (charges.getD j default).active = true)
    ∧ (∀ s : SimState, s.charges = charges → ∀ n,
        (updateTick^[n] s).charges.getD i default = charges.getD i default) := by
  refine ⟨?_, computeForcesFun_of_inactive charges i hinact,
    fun c' hc' k => computeForcesFun_set_inactive charges i c' hinact hc' k,
    ?_, ?_⟩
  · rw [update_physics_getD charges forces dt bmin bmax i hi]
    exact stepCharge_inactive _ _ _ _ _ hinact
  · intro j hj hact
    by_cases h : (charges.getD j default).active = true
    · exact h
    · have hf : (charges.getD j default).active = false := by
        cases hh : (charges.getD j default).active
        · rfl
        · exact absurd hh h
      rw [update_physics_getD charges forces dt bmin bmax j hj,
        stepCharge_inactive _ _ _ _ _ hf] at hact
      exact absurd hact h
  · intro s hs n
    subst hs
    exact updateTick_iterate_inactive s i hi hinact n

/-- An already deactivated particle, used to instantiate theorems. -/
noncomputable def inactiveProbe : Charge :=
  { pos := (7.0, 8.0, 9.0), vel := (1.0, 1.0, 1.0), q := 1e-6, m := 1e-3,
    active := false }

/-- Witness for C5: the one-particle list `[inactiveProbe]`. -/
theorem deactivation_permanent_witness :
    ((0 : Nat) < List.length [inactiveProbe] ∧
      (List.getD [inactiveProbe] 0 default).active = false)
    ∧ ((update_physics [inactiveProbe] (fun _ => (0 : Vec3)) 1 (-10) 10).getD 0
          default = List.getD [inactiveProbe] 0 default
      ∧ computeForcesFun [inactiveProbe] 0 = 0
      ∧ (∀ c' : Charge, c'.active = false → ∀ k,
          computeForcesFun (List.set [inactiveProbe] 0 c') k
            = computeForcesFun [inactiveProbe] k)
      ∧ (∀ j, j < List.length [inactiveProbe] →
          ((update_physics [inactiveProbe] (fun _ => (0 : Vec3)) 1 (-10)
              10).getD j default).active = true →
          (List.getD [inactiveProbe] j default).active = true)
      ∧ (∀ s : SimState, s.charges = [inactiveProbe] → ∀ n,
          (updateTick^[n] s).charges.getD 0 default
            = List.getD [inactiveProbe] 0 default)) :=
  ⟨⟨by decide, rfl⟩,
    deactivation_permanent [inactiveProbe] (fun _ => (0 : Vec3)) 1 (-10) 10 0
      (by decide) rfl⟩

/-- C1 counterexample: at the Dipole configuration
(`q1 = +5e-6` at `(4,5,5)`, `q2 = -5e-6` at `(6,5,5)`, masses `1e-2`,
velocities zero, `dt = 0.005`), one tick of `compute_forces` followed by
`update_physics` gives particle 1 a force whose x-component is negative
(pointing away from particle 2, not toward it), a new velocity with
negative x-component (not ≈ +2.809 units/s along +x), and a new
x-position strictly below 4 (not ≈ 4.01405). -/
theorem dipole_first_step_claim_false :
    (computeForcesFun dipolePreset.charges 0).1 < 0 ∧
    ((update_physics dipolePreset.charges
        (computeForcesFun dipolePreset.charges) default_dt
        (-100000) 100000).getD 0 default).vel.1 < 0 ∧
    ((update_physics dipolePreset.charges
        (computeForcesFun dipolePreset.charges) default_dt
        (-100000) 100000).getD 0 default).pos.1 < 4 := by
  refine ⟨?_, ?_, ?_⟩
  · rw [dipole_force0]
    show dipoleForceX < 0
    norm_num [dipoleForceX, k_e]
  · rw [dipole_step0.1]
    show default_dt / 1e-2 * dipoleForceX < 0
    norm_num [dipoleForceX, k_e, default_dt]
  · rw [dipole_step0.2]
    show 4 + default_dt * (default_dt / 1e-2 * dipoleForceX) < 4
    norm_num [dipoleForceX, k_e, default_dt]

/-- C1 amended: at the Dipole configuration one tick gives particle 1 a
force `(k_e * 5e-6 * (-5e-6) / (2 + 1e-14)^3 * 2, 0, 0)`, i.e. of
magnitude ≈ 0.056175 directed along −x (away from particle 2, since the
code repels opposite charges), a new velocity of x-component
`dt/m * F_x ≈ -0.0280875` (zero in y and z), and a new position
`x ≈ 4 - 0.000140437 ≈ 3.9998596`, `y = z = 5`. -/
theorem dipole_first_step_amended :
    (computeForcesFun dipolePreset.charges 0 = (dipoleForceX, 0, 0)
      ∧ -0.05618 < dipoleForceX ∧ dipoleForceX < -0.05617)
    ∧ (((update_physics dipolePreset.charges
          (computeForcesFun dipolePreset.charges) default_dt
          (-100000) 100000).getD 0 default).vel
        = (default_dt / 1e-2 * dipoleForceX, 0, 0)
      ∧ -0.02809 < default_dt / 1e-2 * dipoleForceX
      ∧ default_dt / 1e-2 * dipoleForceX < -0.02808)
    ∧ (((update_physics dipolePreset.charges
          (computeForcesFun dipolePreset.charges) default_dt
          (-100000) 100000).getD 0 default).pos
        = (4 + default_dt * (default_dt / 1e-2 * dipoleForceX), 5, 5)
      ∧ 3.99985 < 4 + default_dt * (default_dt / 1e-2 * dipoleForceX)
      ∧ 4 + default_dt * (default_dt / 1e-2 * dipoleForceX) < 3.99986) := by
  refine ⟨⟨dipole_force0, ?_⟩, ⟨dipole_step0.1, ?_⟩, ⟨dipole_step0.2, ?_⟩⟩
  · norm_num [dipoleForceX, k_e]
  · norm_num [dipoleForceX, k_e, default_dt]
  · norm_num [dipoleForceX, k_e, default_dt]

/-- C8: on every advanced tick, after the integrator has run, a copy of
every particle's current (post-step) position is appended to its
trajectory, unconditionally including inactive particles; a trajectory's
length grows by exactly one per running tick, so after `n` ticks from a
reset it equals `n`; reset replaces the trajectories by one empty
sequence per particle of the newly loaded preset. -/
theorem trajectory_recording :
    (∀ (s : SimState) (p : Preset),
      (reset_simulation s p).trajectories
        = List.replicate p.charges.length [])
    ∧ (∀ s : SimState, s.running = true → ∀ i, i < s.charges.length →
        (updateTick s).trajectories.getD i []
          = s.trajectories.getD i []
            ++ [((updateTick s).charges.getD i default).pos])
    ∧ (∀ (s : SimState) (n i : Nat), s.running = true →
        i < s.charges.length →
        ((updateTick^[n] s).trajectories.getD i []).length
          = (s.trajectories.getD i []).length + n)
    ∧ (∀ (s : SimState) (p : Preset) (n i : Nat), s.running = true →
        i < p.charges.length →
        ((updateTick^[n] (reset_simulation s p)).trajectories.getD i
          []).length = n) := by
  refine ⟨fun s p => rfl, fun s h i hi => updateTick_traj s h i hi,
    fun s n i h hi => updateTick_iterate_traj_length s h i hi n, ?_⟩
  intro s p n i h hi
  have hrun : (reset_simulation s p).running = true := h
  have hlen : i < (reset_simulation s p).charges.length := hi
  rw [updateTick_iterate_traj_length (reset_simulation s p) hrun i hlen n]
  have he : (reset_simulation s p).trajectories.getD i [] = [] :=
    getD_replicate_nil _ i
  rw [he]
  simp

/-- A small running state used to instantiate the trajectory theorem. -/
noncomputable def trajState : SimState :=
  { charges := [soloCharge]
    colors := []
    trajectories := [[]]
    dt := 1
    running := true }

/-- Witness for C8: one and two ticks of `trajState`, plus a reset. -/
theorem trajectory_recording_witness :
    (trajState.running = true ∧ (0 : Nat) < trajState.charges.length ∧
      (0 : Nat) < dipolePreset.charges.length)
    ∧ ((updateTick trajState).trajectories.getD 0 []
        = trajState.trajectories.getD 0 []
          ++ [((updateTick trajState).charges.getD 0 default).pos]
      ∧ ((updateTick^[2] trajState).trajectories.getD 0 []).length
        = (trajState.trajectories.getD 0 []).length + 2
      ∧ ((updateTick^[3] (reset_simulation trajState
          dipolePreset)).trajectories.getD 0 []).length = 3) :=
  ⟨⟨rfl, by decide, by decide⟩,
    trajectory_recording.2.1 trajState rfl 0 (by decide),
    trajectory_recording.2.2.1 trajState 2 0 rfl (by decide),
    trajectory_recording.2.2.2 trajState dipolePreset 3 0 rfl (by decide)⟩

/-- A malformed preset: color sequence shorter than the charge sequence,
and a particle of non-positive mass. -/
noncomputable def malformedPreset : Preset :=
  { name := "Malformed"
    charges :=
      [ { pos := (0.0, 0.0, 0.0), vel := (0.0, 0.0, 0.0), q := 1e-6, m := 0,
          active := true } ]
    colors := [] }

/-- C9 (code-bug demonstration): a malformed preset is accepted silently:
`__init__` and `reset_simulation` copy its charge array unchanged into
the simulation state, signalling nothing, so the mismatched lengths and
the non-positive mass flow straight into the per-tick loop. -/
theorem malformed_preset_accepted_silently :
    malformedPreset.charges.length ≠ malformedPreset.colors.length
    ∧ (malformedPreset.charges.getD 0 default).m ≤ 0
    ∧ (initSimulation malformedPreset).charges = malformedPreset.charges
    ∧ (reset_simulation (initSimulation malformedPreset)
        malformedPreset).charges = malformedPreset.charges := by
  refine ⟨by decide, ?_, rfl, rfl⟩
  norm_num [malformedPreset]

/-- C7: loading the same preset twice (`.copy()` on each load) yields two
charge arrays with identical contents but distinct, independent storage:
both loaded references differ from each other and from the preset's
reference and hold the preset's contents, and writing through either
loaded reference changes neither the other loaded array nor the preset's
array. -/
theorem preset_load_independent (h0 : Heap) (p : Nat)
    (hp : p < h0.cells.length) :
    (loadChargesRef h0 p).2 ≠ p
    ∧ (loadChargesRef (loadChargesRef h0 p).1 p).2 ≠ p
    ∧ (loadChargesRef (loadChargesRef h0 p).1 p).2 ≠ (loadChargesRef h0 p).2
    ∧ (loadChargesRef (loadChargesRef h0 p).1 p).1.read
        (loadChargesRef h0 p).2 = h0.read p
    ∧ (loadChargesRef (loadChargesRef h0 p).1 p).1.read
        (loadChargesRef (loadChargesRef h0 p).1 p).2 = h0.read p
    ∧ ∀ v : List Charge,
        ((loadChargesRef (loadChargesRef h0 p).1 p).1.write
            (loadChargesRef h0 p).2 v).read
          (loadChargesRef (loadChargesRef h0 p).1 p).2 = h0.read p
        ∧ ((loadChargesRef (loadChargesRef h0 p).1 p).1.write
            (loadChargesRef h0 p).2 v).read p = h0.read p
        ∧ ((loadChargesRef (loadChargesRef h0 p).1 p).1.write
            (loadChargesRef (loadChargesRef h0 p).1 p).2 v).read
          (loadChargesRef h0 p).2 = h0.read p
        ∧ ((loadChargesRef (loadChargesRef h0 p).1 p).1.write
            (loadChargesRef (loadChargesRef h0 p).1 p).2 v).read p
          = h0.read p := by
  have hr1 : (loadChargesRef h0 p).2 = h0.cells.length := rfl
  have hl1len : (loadChargesRef h0 p).1.cells.length = h0.cells.length + 1 := by
    show (h0.cells ++ [h0.read p]).length = _
    simp
  have hr2 : (loadChargesRef (loadChargesRef h0 p).1 p).2
      = h0.cells.length + 1 := by
    show (loadChargesRef h0 p).1.cells.length = _
    exact hl1len
  have hp1 : p < (loadChargesRef h0 p).1.cells.length := by
    rw [hl1len]
    omega
  have hread1p : (loadChargesRef h0 p).1.read p = h0.read p :=
    Heap.read_alloc_old h0 (h0.read p) p hp
  have hread1r1 : (loadChargesRef h0 p).1.read ((loadChargesRef h0 p).2)
      = h0.read p :=
    Heap.read_alloc_new h0 (h0.read p)
  have hread2r1 : (loadChargesRef (loadChargesRef h0 p).1 p).1.read
      ((loadChargesRef h0 p).2) = h0.read p :=
    (Heap.read_alloc_old (loadChargesRef h0 p).1
      ((loadChargesRef h0 p).1.read p) ((loadChargesRef h0 p).2)
      (by rw [hr1, hl1len]; omega)).trans hread1r1
  have hread2r2 : (loadChargesRef (loadChargesRef h0 p).1 p).1.read
      ((loadChargesRef (loadChargesRef h0 p).1 p).2) = h0.read p :=
    (Heap.read_alloc_new (loadChargesRef h0 p).1
      ((loadChargesRef h0 p).1.read p)).trans hread1p
  have hread2p : (loadChargesRef (loadChargesRef h0 p).1 p).1.read p
      = h0.read p :=
    (Heap.read_alloc_old (loadChargesRef h0 p).1
      ((loadChargesRef h0 p).1.read p) p hp1).trans hread1p
  refine ⟨by rw [hr1]; omega, by rw [hr2]; omega, by rw [hr1, hr2]; omega,
    hread2r1, hread2r2, ?_⟩
  intro v
  exact
    ⟨(Heap.read_write_ne _ _ _ v (by rw [hr1, hr2]; omega)).trans hread2r2,
     (Heap.read_write_ne _ _ _ v (by rw [hr1]; omega)).trans hread2p,
     (Heap.read_write_ne _ _ _ v (by rw [hr2, hr1]; omega)).trans hread2r1,
     (Heap.read_write_ne _ _ _ v (by rw [hr2]; omega)).trans hread2p⟩

/-- The preset catalog as a one-cell heap holding the Dipole charge array. -/
noncomputable def dipoleHeap : Heap := ⟨[dipolePreset.charges]⟩

/-- Witness for C7: loading the Dipole preset twice from `dipoleHeap`. -/
theorem preset_load_independent_witness :
    ((0 : Nat) < dipoleHeap.cells.length)
    ∧ ((loadChargesRef dipoleHeap 0).2 ≠ 0
      ∧ (loadChargesRef (loadChargesRef dipoleHeap 0).1 0).2 ≠ 0
      ∧ (loadChargesRef (loadChargesRef dipoleHeap 0).1 0).2
          ≠ (loadChargesRef dipoleHeap 0).2
      ∧ (loadChargesRef (loadChargesRef dipoleHeap 0).1 0).1.read
          (loadChargesRef dipoleHeap 0).2 = dipoleHeap.read 0
      ∧ (loadChargesRef (loadChargesRef dipoleHeap 0).1 0).1.read
          (loadChargesRef (loadChargesRef dipoleHeap 0).1 0).2
        = dipoleHeap.read 0
      ∧ ∀ v : List Charge,
          ((loadChargesRef (loadChargesRef dipoleHeap 0).1 0).1.write
              (loadChargesRef dipoleHeap 0).2 v).read
            (loadChargesRef (loadChargesRef dipoleHeap 0).1 0).2
            = dipoleHeap.read 0
          ∧ ((loadChargesRef (loadChargesRef dipoleHeap 0).1 0).1.write
              (loadChargesRef dipoleHeap 0).2 v).read 0 = dipoleHeap.read 0
          ∧ ((loadChargesRef (loadChargesRef dipoleHeap 0).1 0).1.write
              (loadChargesRef (loadChargesRef dipoleHeap 0).1 0).2 v).read
            (loadChargesRef dipoleHeap 0).2 = dipoleHeap.read 0
          ∧ ((loadChargesRef (loadChargesRef dipoleHeap 0).1 0).1.write
              (loadChargesRef (loadChargesRef dipoleHeap 0).1 0).2 v).read 0
            = dipoleHeap.read 0) :=
  ⟨by decide, preset_load_independent dipoleHeap 0 (by decide)⟩
